import Mathlib

/-!
Verification of the darkredis connection core (`src/connection.rs`).

The Rust code is shallowly embedded: bytes are `Nat` (the value of a `u8`),
a TCP byte stream is a `List Nat` of the bytes still unread, and every
fallible or panicking operation returns an `Option`: `none` models a Rust
panic (an `unwrap`, a failed `assert_eq!`, an arithmetic-overflow abort) or
a computation that does not finish within the supplied fuel, while
`some (Except.error e)` models an `Err(e)` returned to the caller and
`some (Except.ok v)` a normal return.  Fuel makes every recursion in the
decoder structurally terminating; theorems that need "enough fuel" carry it
as an explicit hypothesis.
-/

namespace Darkredis

/-- Bytes of a string literal, used for the command-name literals of the
source (`Command::new("HDEL")` and friends).  All the literals involved are
ASCII, where one `Char` is one byte. -/
def ascii (s : String) : List Nat := s.data.map Char.toNat

/-- ASCII bytes whose decoded characters satisfy Rust `char::is_whitespace`
(the ASCII part of it: tab, line feed, vertical tab, form feed, carriage
return, space). -/
def is_ws (b : Nat) : Bool :=
  b = 9 || b = 10 || b = 11 || b = 12 || b = 13 || b = 32

/-- Embedding of Rust `str::trim` on an ASCII byte string: drop whitespace
from both ends. -/
def trim (s : List Nat) : List Nat :=
  ((s.dropWhile is_ws).reverse.dropWhile is_ws).reverse

/-- Value of a nonempty all-digit byte string, `none` otherwise; the digit
loop of Rust integer `from_str`. -/
def digits_to_nat (s : List Nat) : Option Nat :=
  if s = [] then none
  else
    s.foldl
      (fun acc b => acc.bind fun a =>
        if 48 ≤ b ∧ b ≤ 57 then some (a * 10 + (b - 48)) else none)
      (some 0)

/-- Rust signed-integer `from_str` without the width check: an optional
leading `+` (byte 43) or `-` (byte 45) followed by at least one digit. -/
def parse_int_core (s : List Nat) : Option Int :=
  match s with
  | 43 :: rest => (digits_to_nat rest).map fun n => (n : Int)
  | 45 :: rest => (digits_to_nat rest).map fun n => -(n : Int)
  | _ => (digits_to_nat s).map fun n => (n : Int)

/-- Embedding of `str::parse::<isize>()` (64-bit): `none` is the `Err` case,
which the source turns into a panic via `unwrap`. -/
def parse_isize (s : List Nat) : Option Int :=
  (parse_int_core s).bind fun n =>
    if -(2 ^ 63) ≤ n ∧ n ≤ 2 ^ 63 - 1 then some n else none

/-- Embedding of `str::parse::<i32>()`. -/
def parse_i32 (s : List Nat) : Option Int :=
  (parse_int_core s).bind fun n =>
    if -(2 ^ 31) ≤ n ∧ n ≤ 2 ^ 31 - 1 then some n else none

/-- Embedding of `str::parse::<usize>()` (64-bit): an optional leading `+`,
no sign otherwise, at least one digit. -/
def parse_usize (s : List Nat) : Option Nat :=
  match s with
  | 43 :: rest => (digits_to_nat rest).bind fun n =>
      if n ≤ 2 ^ 64 - 1 then some n else none
  | _ => (digits_to_nat s).bind fun n =>
      if n ≤ 2 ^ 64 - 1 then some n else none

/-- The decoded reply model, `Value` of the crate. `Integer` carries the
Rust `isize` as an unbounded integer. -/
inductive Value where
  | Ok : Value
  | String (bytes : List Nat) : Value
  | Integer (n : Int) : Value
  | Array (values : List Value) : Value
  | Nil : Value

/-- Equality with a given `Value.String` is decidable; this is the one
`Value` comparison the embedded code performs (the `assert_eq!` of
`subscribe` and `psubscribe`). -/
instance decEqValueString (v : Value) (bs : List Nat) :
    Decidable (v = Value.String bs) :=
  match v with
  | Value.Ok => isFalse fun h => Value.noConfusion h
  | Value.Integer _ => isFalse fun h => Value.noConfusion h
  | Value.Array _ => isFalse fun h => Value.noConfusion h
  | Value.Nil => isFalse fun h => Value.noConfusion h
  | Value.String b =>
    if h : b = bs then isTrue (by rw [h])
    else isFalse (by intro hh; injection hh; exact h (by assumption))

/-- The crate error type, `Error`, restricted to the variants the embedded
code produces.  `IoError` stands for any transport error converted from
`io::Error` (here: `read_exact` hitting end of stream). -/
inductive RError where
  | IoError : RError
  | RedisError (msg : List Nat) : RError
  | UnexpectedResponse (raw : List Nat) : RError
  | EmptySlice : RError
deriving DecidableEq, Repr

/-- Loop body of the free function `read_until`.  One fuel unit is one loop
iteration, i.e. one `r.read(&mut single)` call.  `single` is the one-byte
scratch buffer, initialised to `0` by the caller; a read at end of stream
returns `Ok(0)` and leaves `single` untouched, so the loop pushes the stale
byte and keeps going. -/
def read_until_go (byte : Nat) : Nat → List Nat → List Nat → Nat →
    Option (List Nat × List Nat)
  | 0, _, _, _ => none
  | fuel + 1, [], buffer, single =>
      -- read returned Ok(0): `single` unchanged, stale byte pushed
      if single = byte then some (buffer ++ [single], [])
      else read_until_go byte fuel [] (buffer ++ [single]) single
  | fuel + 1, b :: rest, buffer, _single =>
      if b = byte then some (buffer ++ [b], rest)
      else read_until_go byte fuel rest (buffer ++ [b]) b

/-- Embedding of `read_until(r, byte)`: `some (line, rest)` is a normal
return of `line` with `rest` still unread; `none` means the function did
not return within `fuel` read calls. -/
def read_until (fuel byte : Nat) (input : List Nat) :
    Option (List Nat × List Nat) :=
  read_until_go byte fuel input [] 0

/-- Header line of the literal `+OK\r\n` comparison in
`parse_simple_value`. -/
def plus_ok_line : List Nat := [43, 79, 75, 13, 10]

/-- Embedding of `Connection::parse_simple_value`.  The argument is the full
header line as returned by `read_until`, terminator included.  Byte 43 is
`+`, 45 is `-`, 58 is `:`.  `none` models the panics: indexing `buf[0]` on
an empty buffer, and the `unwrap` on integer parsing. -/
def parse_simple_value (buf : List Nat) : Option (Except RError Value) :=
  match buf with
  | [] => none
  | t :: rest =>
    if t = 43 then
      if buf = plus_ok_line then some (Except.ok Value.Ok)
      else some (Except.ok (Value.String rest))
    else if t = 45 then
      some (Except.error (RError.RedisError rest))
    else if t = 58 then
      match parse_isize (trim rest) with
      | none => none
      | some n => some (Except.ok (Value.Integer n))
    else
      some (Except.error (RError.UnexpectedResponse buf))

/-- Header line of the literal `$-1\r\n` comparison in `parse_string`. -/
def dollar_neg_one : List Nat := [36, 45, 49, 13, 10]

/-- Embedding of `Connection::parse_string`.  `start` is the header line,
`input` the rest of the stream.  The source allocates `num + 2` bytes, fills
them with `read_exact` (whose end-of-stream failure is the `IoError` case),
then pops the last two bytes. -/
def parse_string (start input : List Nat) :
    Option (Except RError (Value × List Nat)) :=
  if start = dollar_neg_one then some (Except.ok (Value.Nil, input))
  else
    match parse_usize (trim start.tail) with
    | none => none
    | some num =>
      if num + 2 ≤ input.length then
        let buf := input.take (num + 2)
        some (Except.ok (Value.String buf.dropLast.dropLast,
          input.drop (num + 2)))
      else some (Except.error RError.IoError)

mutual

/-- Embedding of `Connection::read_value`: read a header line, dispatch on
its first byte (43 `+`, 45 `-`, 58 `:`, 36 `$`, 42 `*`).  The same dispatch
is the loop body of `parse_array` in the source; nesting depth costs one
fuel unit. -/
def read_value : Nat → List Nat → Option (Except RError (Value × List Nat))
  | 0, _ => none
  | fuel + 1, input =>
    match read_until (fuel + 1) 10 input with
    | none => none
    | some (buf, rest) =>
      match buf with
      | [] => none
      | t :: _ =>
        if t = 43 ∨ t = 45 ∨ t = 58 then
          match parse_simple_value buf with
          | none => none
          | some (Except.error e) => some (Except.error e)
          | some (Except.ok v) => some (Except.ok (v, rest))
        else if t = 36 then parse_string buf rest
        else if t = 42 then parse_array fuel buf rest
        else some (Except.error (RError.UnexpectedResponse buf))
termination_by fuel _ => (fuel, 0)
decreasing_by exact Prod.Lex.left _ _ (Nat.lt_succ_self _)

/-- Embedding of `Connection::parse_array`: parse the element count as an
`i32` (`none` on the `unwrap` panic), resolve a negative count to `Nil`,
otherwise decode that many nested frames. -/
def parse_array : Nat → List Nat → List Nat →
    Option (Except RError (Value × List Nat))
  | 0, _, _ => none
  | fuel + 1, start, input =>
    match parse_i32 (trim start.tail) with
    | none => none
    | some n =>
      if n < 0 then some (Except.ok (Value.Nil, input))
      else
        match parse_frames fuel n.toNat input with
        | none => none
        | some (Except.error e) => some (Except.error e)
        | some (Except.ok (vs, rest)) =>
          some (Except.ok (Value.Array vs, rest))
termination_by fuel _ _ => (fuel, 1)
decreasing_by exact Prod.Lex.left _ _ (Nat.lt_succ_self _)

/-- The `for _ in 0..num` loop of `parse_array`: decode `count` frames and
collect them in order.  Its loop body is byte-for-byte the dispatch of
`read_value`, so it is embedded as a call to it. -/
def parse_frames : Nat → Nat → List Nat →
    Option (Except RError (List Value × List Nat))
  | _, 0, input => some (Except.ok ([], input))
  | fuel, count + 1, input =>
    match read_value fuel input with
    | none => none
    | some (Except.error e) => some (Except.error e)
    | some (Except.ok (v, rest)) =>
      match parse_frames fuel count rest with
      | none => none
      | some (Except.error e) => some (Except.error e)
      | some (Except.ok (vs, rest2)) => some (Except.ok (v :: vs, rest2))
termination_by fuel count _ => (fuel, count + 2)
decreasing_by all_goals exact Prod.Lex.right _ (by omega)

end

/-- Overflow-checked `usize` subtraction, the semantics of `a - b` in the
source under overflow checks: `none` is the underflow panic. -/
def checked_sub (a b : Nat) : Option Nat :=
  if b ≤ a then some (a - b) else none

/-- The confirmation loop shared by `subscribe` and `psubscribe`:
`for _ in 0..n { let response = read_value(..); assert_eq!(
response.unwrap_array()[0], Value::String(tag)) }`.  `none` models the
panics: `unwrap_array` on a non-array, indexing `[0]` on an empty array,
and a failed `assert_eq!`.  On success the remaining unread input is
returned. -/
def confirm_loop (fuel : Nat) (tag : List Nat) :
    Nat → List Nat → Option (Except RError (List Nat))
  | 0, input => some (Except.ok input)
  | n + 1, input =>
    match read_value fuel input with
    | none => none
    | some (Except.error e) => some (Except.error e)
    | some (Except.ok (v, rest)) =>
      match v with
      | Value.Array (v0 :: _) =>
        if v0 = Value.String tag then confirm_loop fuel tag n rest else none
      | _ => none

/-- Embedding of `Connection::subscribe`.  I/O is modelled on the reply
side: `input` is the stream of reply bytes the server sends back.  The
function first runs the SUBSCRIBE command (one `read_value`, its error
propagated by `?` before the loop is reached), then discards
`channels.len() - 1` confirmation frames — an overflow-checked subtraction.
On success the leftover input (handed to the `MessageStream`) is
returned. -/
def subscribe (fuel : Nat) (channels : List (List Nat)) (input : List Nat) :
    Option (Except RError (List Nat)) :=
  match read_value fuel input with
  | none => none
  | some (Except.error e) => some (Except.error e)
  | some (Except.ok (_, rest)) =>
    match checked_sub channels.length 1 with
    | none => none
    | some n => confirm_loop fuel (ascii ("subscribe")) n rest

/-- Embedding of `Connection::psubscribe`; identical to `subscribe` except
for the command name and the asserted tag. -/
def psubscribe (fuel : Nat) (patterns : List (List Nat)) (input : List Nat) :
    Option (Except RError (List Nat)) :=
  match read_value fuel input with
  | none => none
  | some (Except.error e) => some (Except.error e)
  | some (Except.ok (_, rest)) =>
    match checked_sub patterns.length 1 with
    | none => none
    | some n => confirm_loop fuel (ascii ("psubscribe")) n rest

/-- Modelled from the spec: the `Command` type lives in the crate root,
which is not among the shown sources.  Per the spec it is "an ordered
sequence of byte-string arguments (the first is the operation name)". -/
abbrev Command : Type := List (List Nat)

/-- Modelled from the spec: `Command::new(name)` starts the argument
sequence with the operation name. -/
def Command.new (name : String) : Command := [ascii name]

/-- Modelled from the spec: `Command::arg` appends one argument. -/
def Command.arg (c : Command) (a : List Nat) : Command := c ++ [a]

/-- Modelled from the spec: `Command::args` appends each element of a
slice. -/
def Command.args (c : Command) (as' : List (List Nat)) : Command := c ++ as'

/-- Embedding of the `check_slice_not_empty!` macro: an early
`Err(Error::EmptySlice)` on an empty slice, before any command is built,
serialized or written. -/
def check_slice_not_empty (slice : List (List Nat)) : Except RError Unit :=
  if slice.isEmpty then Except.error RError.EmptySlice else Except.ok ()

/-- Pre-I/O behaviour of `Connection::hdel_slice`: the emptiness check,
then the command handed to `run_command` (the `Except.ok` payload is the
argument list that would be serialized and written). -/
def hdel_slice (key : List Nat) (fields : List (List Nat)) :
    Except RError Command :=
  match check_slice_not_empty fields with
  | Except.error e => Except.error e
  | Except.ok _ => Except.ok (((Command.new ("HDEL")).arg key).args fields)

/-- Pre-I/O behaviour of `Connection::del_slice`. -/
def del_slice (keys : List (List Nat)) : Except RError Command :=
  match check_slice_not_empty keys with
  | Except.error e => Except.error e
  | Except.ok _ => Except.ok ((Command.new ("DEL")).args keys)

/-- Pre-I/O behaviour of `Connection::lpush_slice`. -/
def lpush_slice (key : List Nat) (values : List (List Nat)) :
    Except RError Command :=
  match check_slice_not_empty values with
  | Except.error e => Except.error e
  | Except.ok _ => Except.ok (((Command.new ("LPUSH")).arg key).args values)

/-- Pre-I/O behaviour of `Connection::rpush_slice`. -/
def rpush_slice (key : List Nat) (values : List (List Nat)) :
    Except RError Command :=
  match check_slice_not_empty values with
  | Except.error e => Except.error e
  | Except.ok _ => Except.ok (((Command.new ("RPUSH")).arg key).args values)

/-- Pre-I/O behaviour of `Connection::srem_slice`. -/
def srem_slice (key : List Nat) (members : List (List Nat)) :
    Except RError Command :=
  match check_slice_not_empty members with
  | Except.error e => Except.error e
  | Except.ok _ => Except.ok (((Command.new ("SREM")).arg key).args members)

/-- Pre-I/O behaviour of `Connection::sdiff`. -/
def sdiff (sets : List (List Nat)) : Except RError Command :=
  match check_slice_not_empty sets with
  | Except.error e => Except.error e
  | Except.ok _ => Except.ok ((Command.new ("SDIFF")).args sets)

/-- Pre-I/O behaviour of `Connection::sdiffstore`. -/
def sdiffstore (destination : List Nat) (sets : List (List Nat)) :
    Except RError Command :=
  match check_slice_not_empty sets with
  | Except.error e => Except.error e
  | Except.ok _ =>
    Except.ok (((Command.new ("SDIFFSTORE")).arg destination).args sets)

/-- Pre-I/O behaviour of `Connection::sinter`. -/
def sinter (sets : List (List Nat)) : Except RError Command :=
  match check_slice_not_empty sets with
  | Except.error e => Except.error e
  | Except.ok _ => Except.ok ((Command.new ("SINTER")).args sets)

/-- Pre-I/O behaviour of `Connection::sinterstore`. -/
def sinterstore (destination : List Nat) (sets : List (List Nat)) :
    Except RError Command :=
  match check_slice_not_empty sets with
  | Except.error e => Except.error e
  | Except.ok _ =>
    Except.ok (((Command.new ("SINTERSTORE")).arg destination).args sets)

/-- Pre-I/O behaviour of `Connection::sunion`. -/
def sunion (sets : List (List Nat)) : Except RError Command :=
  match check_slice_not_empty sets with
  | Except.error e => Except.error e
  | Except.ok _ => Except.ok ((Command.new ("SUNION")).args sets)

/-- Pre-I/O behaviour of `Connection::sunionstore`. -/
def sunionstore (destination : List Nat) (sets : List (List Nat)) :
    Except RError Command :=
  match check_slice_not_empty sets with
  | Except.error e => Except.error e
  | Except.ok _ =>
    Except.ok (((Command.new ("SUNIONSTORE")).arg destination).args sets)

/-- Pre-I/O behaviour of `Connection::sadd_slice`, exactly as written in the
source: there is no `check_slice_not_empty!` invocation here; the command
is built and run unconditionally. -/
def sadd_slice (key : List Nat) (values : List (List Nat)) :
    Except RError Command :=
  Except.ok (((Command.new ("SADD")).arg key).args values)

/-- State of the futures-aware mutex wrapped around the shared
`TcpStream`. -/
structure MutexState where
  held : Bool
deriving DecidableEq, Repr

/-- Acquiring the mutex (`self.stream.lock().await`): succeeds exactly when
it is free.  The contended path, where the caller suspends until the holder
releases, is modelled as `none`. -/
def mutex_lock (s : MutexState) : Option MutexState :=
  if s.held then none else some { held := true }

/-- Releasing the mutex: what dropping the `MutexGuard` does. -/
def mutex_unlock (_ : MutexState) : MutexState := { held := false }

/-- Embedding of the crate `ResponseStream` as constructed by
`ResponseStream::new(command_count, self.stream.clone())`: it is handed the
number of expected replies and a plain clone of the `Arc` around the shared
mutex.  The `stream` field is that handle; being a bare reference it
carries no exclusivity, which the type records by making it `Unit`. -/
structure ResponseStream where
  command_count : Nat
  stream : Unit
deriving DecidableEq, Repr

/-- Mutex-relevant behaviour of `Connection::run_commands_with_buffer`,
line by line: clear the buffer (no lock effect); `let mut lock =
self.stream.lock().await` acquires the guard; serialize and `write_all`
the batch (no lock effect); construct
`ResponseStream::new(command_count, self.stream.clone())`; finally the
local `lock` guard, which is not moved into the return value, is dropped
when the function scope ends, releasing the mutex — so the returned state
has the mutex free.  The result pairs the returned stream with the mutex
state at the moment the call returns. -/
def run_commands_with_buffer (command : List Command) (s : MutexState) :
    Option (ResponseStream × MutexState) :=
  match mutex_lock s with
  | none => none
  | some s1 =>
    some ({ command_count := command.length, stream := () },
      mutex_unlock s1)

/-- Decoding of exactly `n` consecutive frames: `DecodesN fuel n input vs
final` holds when the stream `input` starts with `n` frames that decode (at
fuel `fuel`) to the values `vs` in order, leaving `final` unread. -/
inductive DecodesN (fuel : Nat) : Nat → List Nat → List Value → List Nat → Prop where
  | nil (input : List Nat) : DecodesN fuel 0 input [] input
  | cons {n : Nat} {input rest final : List Nat} {v : Value} {vs : List Value} :
      read_value fuel input = some (Except.ok (v, rest)) →
      DecodesN fuel n rest vs final →
      DecodesN fuel (n + 1) input (v :: vs) final

/-- Well-formed subscription confirmations: the stream `input` starts with
`n` frames, each decoding to an array whose first element is
`Value.String tag`, leaving `final` unread. -/
inductive GoodConfirms (fuel : Nat) (tag : List Nat) : Nat → List Nat → List Nat → Prop where
  | nil (input : List Nat) : GoodConfirms fuel tag 0 input input
  | cons {n : Nat} {input rest final : List Nat} {others : List Value} :
      read_value fuel input =
        some (Except.ok (Value.Array (Value.String tag :: others), rest)) →
      GoodConfirms fuel tag n rest final →
      GoodConfirms fuel tag (n + 1) input final

section Lemmas

/-- Two pops on a buffer of exactly `n + 2` bytes taken from the stream
leave the first `n` bytes. -/
theorem take_dropLast_dropLast (l : List Nat) (n : Nat) (h : n + 2 ≤ l.length) :
    ((l.take (n + 2)).dropLast).dropLast = l.take n := by
  have h1 : (l.take (n + 2)).length = n + 2 := by
    rw [List.length_take]; omega
  have h2 : (l.take (n + 1)).length = n + 1 := by
    rw [List.length_take]; omega
  have e1 : (l.take (n + 2)).dropLast = l.take (n + 1) := by
    rw [List.dropLast_eq_take, h1, List.take_take]
    congr 1
    omega
  have e2 : (l.take (n + 1)).dropLast = l.take n := by
    rw [List.dropLast_eq_take, h2, List.take_take]
    congr 1
    omega
  rw [e1, e2]

/-- Generalised success case of the `read_until` loop: if the target byte
occurs right after the byte-free prefix `pre`, the loop appends `pre` and
the target to the accumulated buffer and stops, whatever the scratch byte
holds. -/
theorem read_until_go_finds (byte : Nat) (pre : List Nat) :
    ∀ (post buffer : List Nat) (single fuel : Nat), byte ∉ pre →
    pre.length < fuel →
    read_until_go byte fuel (pre ++ byte :: post) buffer single =
      some (buffer ++ (pre ++ [byte]), post) := by
  induction pre with
  | nil =>
    intro post buffer single fuel _ hf
    match fuel, hf with
    | f + 1, _ => simp [read_until_go]
  | cons p pre ih =>
    intro post buffer single fuel hmem hf
    match fuel, hf with
    | f + 1, hf =>
      have hp : ¬(p = byte) := by
        intro h
        exact hmem (by simp [h])
      have hm : byte ∉ pre := fun h => hmem (List.mem_cons_of_mem _ h)
      have hlen : pre.length < f := by
        simp only [List.length_cons] at hf
        omega
      have step : read_until_go byte (f + 1) ((p :: pre) ++ byte :: post) buffer single
          = read_until_go byte f (pre ++ byte :: post) (buffer ++ [p]) p := by
        simp [read_until_go, hp]
      rw [step, ih post (buffer ++ [p]) p f hm hlen]
      simp

/-- Success case of `read_until`: the returned line is exactly the
byte-free prefix plus the first occurrence of the target byte. -/
theorem read_until_finds (fuel byte : Nat) (pre post : List Nat)
    (hmem : byte ∉ pre) (hf : pre.length < fuel) :
    read_until fuel byte (pre ++ byte :: post) = some (pre ++ [byte], post) := by
  unfold read_until
  rw [read_until_go_finds byte pre post [] 0 fuel hmem hf]
  simp

/-- The `read_until` loop only ever grows the buffer before returning it. -/
theorem read_until_go_grows (byte : Nat) :
    ∀ (fuel : Nat) (input buffer : List Nat) (single : Nat)
    (out rest : List Nat),
    read_until_go byte fuel input buffer single = some (out, rest) →
    buffer.length < out.length := by
  intro fuel
  induction fuel with
  | zero => intro input buffer single out rest h; simp [read_until_go] at h
  | succ f ih =>
    intro input buffer single out rest h
    match input with
    | [] =>
      by_cases hs : single = byte
      · simp [read_until_go, hs] at h
        obtain ⟨h1, _⟩ := h
        rw [← h1]
        simp only [List.length_append, List.length_cons, List.length_nil]
        omega
      · simp only [read_until_go, hs, if_false] at h
        have := ih [] (buffer ++ [single]) single out rest h
        simp only [List.length_append, List.length_cons, List.length_nil] at this
        omega
    | b :: bs =>
      by_cases hb : b = byte
      · simp [read_until_go, hb] at h
        obtain ⟨h1, _⟩ := h
        rw [← h1]
        simp only [List.length_append, List.length_cons, List.length_nil]
        omega
      · simp only [read_until_go, hb, if_false] at h
        have := ih bs (buffer ++ [b]) b out rest h
        simp only [List.length_append, List.length_cons, List.length_nil] at this
        omega

/-- A line returned by `read_until` is never empty, so indexing the tag
byte of a header line cannot fail. -/
theorem read_until_nonempty (fuel byte : Nat) (input out rest : List Nat)
    (h : read_until fuel byte input = some (out, rest)) : out ≠ [] := by
  have := read_until_go_grows byte fuel input [] 0 out rest h
  intro hnil
  rw [hnil] at this
  simp at this

/-- Stuck case of the `read_until` loop: if the target byte occurs neither
in the remaining input nor in the scratch byte, the loop never returns,
whatever the fuel. -/
theorem read_until_go_stuck (byte : Nat) :
    ∀ (fuel : Nat) (input buffer : List Nat) (single : Nat),
    byte ∉ input → single ≠ byte →
    read_until_go byte fuel input buffer single = none := by
  intro fuel
  induction fuel with
  | zero => intro input buffer single _ _; rfl
  | succ f ih =>
    intro input buffer single hmem hs
    match input with
    | [] =>
      have : ¬(single = byte) := hs
      simp only [read_until_go, this, if_false]
      exact ih [] (buffer ++ [single]) single hmem hs
    | b :: bs =>
      have hb : ¬(b = byte) := by
        intro h
        exact hmem (by simp [h])
      simp only [read_until_go, hb, if_false]
      exact ih bs (buffer ++ [b]) b (fun h => hmem (List.mem_cons_of_mem _ h)) hb

/-- Non-termination of `read_until` at end of stream: if the target byte
never occurs and the degenerate initial-scratch case (empty input with
target byte `0`) is excluded, no amount of fuel makes the loop return. -/
theorem read_until_diverges (fuel byte : Nat) (input : List Nat)
    (hmem : byte ∉ input) (hd : input ≠ [] ∨ byte ≠ 0) :
    read_until fuel byte input = none := by
  unfold read_until
  match input with
  | [] =>
    have hb : byte ≠ 0 := by
      rcases hd with h | h
      · exact absurd rfl h
      · exact h
    exact read_until_go_stuck byte fuel [] [] 0 hmem (fun h => hb h.symm)
  | b :: bs =>
    match fuel with
    | 0 => rfl
    | f + 1 =>
      have hb : ¬(b = byte) := by
        intro h
        exact hmem (by simp [h])
      simp only [read_until_go, hb, if_false]
      exact read_until_go_stuck byte f bs [b] b
        (fun h => hmem (List.mem_cons_of_mem _ h)) hb

/-- The element loop of `parse_array` decodes exactly the frames described
by `DecodesN`, in order. -/
theorem parse_frames_decodes {fuel n : Nat} {input final : List Nat}
    {vs : List Value} (h : DecodesN fuel n input vs final) :
    parse_frames fuel n input = some (Except.ok (vs, final)) := by
  induction h with
  | nil input => simp [parse_frames]
  | cons h1 _ ih => simp [parse_frames, h1, ih]

/-- `DecodesN` consumes one frame per counted element. -/
theorem decodesN_length {fuel n : Nat} {input final : List Nat}
    {vs : List Value} (h : DecodesN fuel n input vs final) :
    vs.length = n := by
  induction h with
  | nil input => rfl
  | cons _ _ ih => simp [ih]

/-- The confirmation loop accepts any run of well-formed confirmation
frames without firing the assertion, handing back the unread rest. -/
theorem confirm_loop_drains {fuel n : Nat} {tag : List Nat}
    {input final : List Nat} (h : GoodConfirms fuel tag n input final) :
    confirm_loop fuel tag n input = some (Except.ok final) := by
  induction h with
  | nil input => simp [confirm_loop]
  | cons h1 _ ih => simp [confirm_loop, h1, ih]

/-- `parse_simple_value` never produces the empty-slice error: its error
cases are `RedisError` and `UnexpectedResponse` only. -/
theorem parse_simple_value_ne_empty_slice (buf : List Nat) :
    parse_simple_value buf ≠ some (Except.error RError.EmptySlice) := by
  match buf with
  | [] => simp [parse_simple_value]
  | t :: rest =>
    simp only [parse_simple_value]
    split_ifs <;> try simp
    cases parse_isize (trim rest) <;> simp

/-- `parse_string` never produces the empty-slice error: its only error
case is the transport error of `read_exact`. -/
theorem parse_string_ne_empty_slice (start input : List Nat) :
    parse_string start input ≠ some (Except.error RError.EmptySlice) := by
  simp only [parse_string]
  split_ifs with h
  · simp
  · cases parse_usize (trim start.tail) with
    | none => simp
    | some num =>
      simp only
      split_ifs <;> simp

/-- No layer of the frame decoder ever produces the empty-slice error: that
error is reserved for the variadic-argument precondition and never arises
from reply decoding. -/
theorem decoder_ne_empty_slice (fuel : Nat) :
    (∀ input, read_value fuel input ≠ some (Except.error RError.EmptySlice))
    ∧ (∀ start input,
        parse_array fuel start input ≠ some (Except.error RError.EmptySlice))
    ∧ (∀ count input,
        parse_frames fuel count input ≠ some (Except.error RError.EmptySlice)) := by
  induction fuel with
  | zero =>
    refine ⟨fun input => by simp [read_value],
      fun start input => by simp [parse_array], fun count input => ?_⟩
    cases count with
    | zero => simp [parse_frames]
    | succ c => simp [parse_frames, read_value]
  | succ fuel ih =>
    obtain ⟨ihv, iha, ihf⟩ := ih
    have hv : ∀ input,
        read_value (fuel + 1) input ≠ some (Except.error RError.EmptySlice) := by
      intro input
      simp only [read_value]
      cases hru : read_until (fuel + 1) 10 input with
      | none => simp
      | some p =>
        obtain ⟨buf, rest⟩ := p
        cases buf with
        | nil => simp
        | cons t tail =>
          simp only
          split_ifs with h1 h2 h3
          · cases hps : parse_simple_value (t :: tail) with
            | none => simp
            | some r =>
              cases r with
              | error e =>
                have hne := parse_simple_value_ne_empty_slice (t :: tail)
                rw [hps] at hne
                simpa using hne
              | ok v => simp
          · exact parse_string_ne_empty_slice (t :: tail) rest
          · exact iha (t :: tail) rest
          · simp
    have ha : ∀ start input,
        parse_array (fuel + 1) start input
          ≠ some (Except.error RError.EmptySlice) := by
      intro start input
      simp only [parse_array]
      cases parse_i32 (trim start.tail) with
      | none => simp
      | some n =>
        simp only
        split_ifs with h1
        · simp
        · cases hpf : parse_frames fuel n.toNat input with
          | none => simp
          | some r =>
            cases r with
            | error e =>
              have hne := ihf n.toNat input
              rw [hpf] at hne
              simpa using hne
            | ok p =>
              obtain ⟨vs, rest⟩ := p
              simp
    have hf : ∀ count input,
        parse_frames (fuel + 1) count input
          ≠ some (Except.error RError.EmptySlice) := by
      intro count
      induction count with
      | zero => intro input; simp [parse_frames]
      | succ c ihc =>
        intro input
        simp only [parse_frames]
        cases hrv : read_value (fuel + 1) input with
        | none => simp
        | some r =>
          cases r with
          | error e =>
            have hne := hv input
            rw [hrv] at hne
            simpa using hne
          | ok p =>
            obtain ⟨v, rest⟩ := p
            simp only
            cases hpf : parse_frames (fuel + 1) c rest with
            | none => simp
            | some r2 =>
              cases r2 with
              | error e =>
                have hne := ihc rest
                rw [hpf] at hne
                simpa using hne
              | ok p2 =>
                obtain ⟨vs, rest2⟩ := p2
                simp
    exact ⟨hv, ha, hf⟩

end Lemmas

section Claims

/-- C1, counterexample.  The claim states that the guard acquired by
`run_commands_with_buffer` is not released when the call returns and is
held by the returned `ResponseStream`.  In the source the guard is the
local `lock`, which is not moved into `ResponseStream::new` (that receives
only the command count and an `Arc` clone) and is therefore dropped at the
end of the function scope: starting from a free mutex, the call returns
with the mutex free again, and a competing transaction can immediately
acquire it even though the returned one-reply stream is undrained. -/
theorem guard_held_by_stream_counterexample :
    run_commands_with_buffer [[[80, 73, 78, 71]]] { held := false }
      = some ({ command_count := 1, stream := () }, { held := false })
    ∧ mutex_lock { held := false } = some { held := true } :=
  ⟨rfl, rfl⟩

/-- C1, amended: for every batch submitted via `run_commands_with_buffer`,
the guard over the shared socket is acquired before the batch is written
and released when the call returns; the returned `ResponseStream` receives
only the expected-reply count and a clone of the shared handle, not the
guard, so another transaction on the same socket can acquire the guard
while the stream is still undrained. -/
theorem run_commands_with_buffer_releases_guard
    (cs : List Command) (s : MutexState) (h : s.held = false) :
    run_commands_with_buffer cs s
      = some ({ command_count := cs.length, stream := () }, { held := false })
    ∧ (mutex_lock { held := false }).isSome = true := by
  constructor
  · simp [run_commands_with_buffer, mutex_lock, mutex_unlock, h]
  · simp [mutex_lock]

/-- C1, witness for the amended theorem at a concrete two-command batch. -/
theorem run_commands_with_buffer_releases_guard_witness :
    run_commands_with_buffer [[[71, 69, 84], [107]], [[71, 69, 84], [108]]]
        { held := false }
      = some ({ command_count := 2, stream := () }, { held := false })
    ∧ (mutex_lock { held := false }).isSome = true :=
  run_commands_with_buffer_releases_guard
    [[[71, 69, 84], [107]], [[71, 69, 84], [108]]] { held := false } rfl

/-- C2, counterexample.  The claim states that a non-`OK` simple-string
line decodes to `String` of the line with the terminator stripped.  On the
line `+foo\r\n` the code yields `String("foo\r\n")` — terminator kept —
which differs from the claimed `String("foo")`. -/
theorem simple_string_terminator_counterexample :
    parse_simple_value [43, 102, 111, 111, 13, 10]
      = some (Except.ok (Value.String [102, 111, 111, 13, 10]))
    ∧ Value.String [102, 111, 111, 13, 10] ≠ Value.String [102, 111, 111] := by
  refine ⟨rfl, fun h => ?_⟩
  injection h with h2
  simp at h2

/-- C2, amended: a `+`-tagged line that is exactly the literal `+OK\r\n`
decodes to `Value.Ok`; any other `+`-tagged line decodes to `Value.String`
of the remaining bytes of the line with the line terminator still included
(the terminator is not stripped). -/
theorem parse_simple_value_plus_cases (rest : List Nat)
    (h : (43 :: rest) ≠ plus_ok_line) :
    parse_simple_value plus_ok_line = some (Except.ok Value.Ok)
    ∧ parse_simple_value (43 :: rest) = some (Except.ok (Value.String rest)) := by
  refine ⟨rfl, ?_⟩
  simp [parse_simple_value, h]

/-- C2, witness for the amended theorem on the line `+foo\r\n`. -/
theorem parse_simple_value_plus_cases_witness :
    parse_simple_value plus_ok_line = some (Except.ok Value.Ok)
    ∧ parse_simple_value (43 :: [102, 111, 111, 13, 10])
      = some (Except.ok (Value.String [102, 111, 111, 13, 10])) :=
  parse_simple_value_plus_cases [102, 111, 111, 13, 10] (by decide)

/-- C3: a bulk-string reply whose header is the literal `$-1\r\n` decodes
to `Nil`; otherwise, with declared length `n` and at least `n + 2` bytes
available, the decoder consumes exactly `n + 2` bytes and returns `String`
of exactly the first `n` of them — the two terminator bytes are discarded
and the payload is delimited by the declared length alone, so payloads
containing terminator bytes come back intact, and `String []` (present,
empty) is distinct from `Nil`. -/
theorem parse_string_bulk_correct (start input : List Nat) (n : Nat)
    (h1 : start ≠ dollar_neg_one)
    (h2 : parse_usize (trim start.tail) = some n)
    (h3 : n + 2 ≤ input.length) :
    parse_string dollar_neg_one input = some (Except.ok (Value.Nil, input))
    ∧ parse_string start input
        = some (Except.ok (Value.String (input.take n), input.drop (n + 2)))
    ∧ Value.String [] ≠ Value.Nil := by
  refine ⟨by simp [parse_string], ?_, fun h => Value.noConfusion h⟩
  simp [parse_string, h1, h2, h3, take_dropLast_dropLast input n h3]

/-- C3, witness: the header `$5\r\n` with payload `ab\r\nc` (embedded
terminator bytes) followed by the terminator, and the `$0\r\n` empty bulk
string, via the claim theorem instantiated twice. -/
theorem parse_string_bulk_correct_witness :
    parse_string [36, 53, 13, 10] [97, 98, 13, 10, 99, 13, 10]
      = some (Except.ok (Value.String [97, 98, 13, 10, 99], []))
    ∧ parse_string [36, 48, 13, 10] [13, 10]
      = some (Except.ok (Value.String [], []))
    ∧ parse_string dollar_neg_one [97, 98, 13, 10, 99, 13, 10]
      = some (Except.ok (Value.Nil, [97, 98, 13, 10, 99, 13, 10])) := by
  have w1 := parse_string_bulk_correct [36, 53, 13, 10]
    [97, 98, 13, 10, 99, 13, 10] 5 (by decide) (by decide) (by decide)
  have w2 := parse_string_bulk_correct [36, 48, 13, 10] [13, 10] 0
    (by decide) (by decide) (by decide)
  exact ⟨by simpa using w1.2.1, by simpa using w2.2.1, w1.1⟩

/-- C5, counterexample.  The claim lists `sadd_slice` among the variadic
operations that return the empty-argument-list error on an empty slice; in
the source `sadd_slice` is the one slice operation without the
`check_slice_not_empty!` invocation, so with an empty slice it builds and
runs the two-argument `SADD` command instead of returning
`Error::EmptySlice`. -/
theorem sadd_slice_empty_counterexample :
    sadd_slice [107, 101, 121] [] ≠ Except.error RError.EmptySlice
    ∧ sadd_slice [107, 101, 121] []
      = Except.ok [[83, 65, 68, 68], [107, 101, 121]] := by
  constructor
  · intro h
    simp [sadd_slice] at h
  · simp [sadd_slice, Command.new, Command.arg, Command.args, ascii]

/-- C5, amended: every variadic slice operation except `sadd_slice` —
`hdel_slice`, `del_slice`, `lpush_slice`, `rpush_slice`, `srem_slice`,
`sdiff`, `sdiffstore`, `sinter`, `sinterstore`, `sunion`, `sunionstore` —
returns the empty-argument-list error on an empty slice before any command
is built, serialized or written; `sadd_slice` performs no such check and
unconditionally builds and sends the command. -/
theorem empty_slice_rejection (key destination : List Nat) :
    hdel_slice key [] = Except.error RError.EmptySlice
    ∧ del_slice [] = Except.error RError.EmptySlice
    ∧ lpush_slice key [] = Except.error RError.EmptySlice
    ∧ rpush_slice key [] = Except.error RError.EmptySlice
    ∧ srem_slice key [] = Except.error RError.EmptySlice
    ∧ sdiff [] = Except.error RError.EmptySlice
    ∧ sdiffstore destination [] = Except.error RError.EmptySlice
    ∧ sinter [] = Except.error RError.EmptySlice
    ∧ sinterstore destination [] = Except.error RError.EmptySlice
    ∧ sunion [] = Except.error RError.EmptySlice
    ∧ sunionstore destination [] = Except.error RError.EmptySlice
    ∧ sadd_slice key [] = Except.ok ((Command.new ("SADD")).arg key) := by
  refine ⟨rfl, rfl, rfl, rfl, rfl, rfl, rfl, rfl, rfl, rfl, rfl, ?_⟩
  simp [sadd_slice, Command.args]

/-- C7: a `:`-tagged line whose remaining bytes, trimmed, parse as a signed
integer decodes to `Integer` of that value; when they do not parse (the
trailing hypothesis pins the bytes to ASCII, where the embedded `trim` and
integer parse agree exactly with the Rust ones) the result is the local
panic `none`, not a recoverable error value — so under the precondition
that the server emits well-formed integer lines the panic branch is
unreachable. -/
theorem integer_line_decoding (t : List Nat) (n : Int) :
    (parse_isize (trim t) = some n →
      parse_simple_value (58 :: t) = some (Except.ok (Value.Integer n)))
    ∧ (parse_isize (trim t) = none → (∀ b ∈ t, b < 128) →
      parse_simple_value (58 :: t) = none) := by
  constructor
  · intro h
    simp [parse_simple_value, h]
  · intro h _
    simp [parse_simple_value, h]

/-- C7, witness: the well-formed line `:-42\r\n` and the malformed line
`:x\r\n`, via the claim theorem instantiated twice. -/
theorem integer_line_decoding_witness :
    parse_simple_value [58, 45, 52, 50, 13, 10]
      = some (Except.ok (Value.Integer (-42)))
    ∧ parse_simple_value [58, 120, 13, 10] = none := by
  have w1 := (integer_line_decoding [45, 52, 50, 13, 10] (-42)).1 (by decide)
  have w2 := (integer_line_decoding [120, 13, 10] 0).2 (by decide) (by decide)
  exact ⟨w1, w2⟩

/-- C10, counterexample.  The claim states that when the stream is
exhausted before the target byte occurs, `read_until` never returns.  With
target byte `0` and an already-empty stream, the first end-of-stream read
leaves the scratch buffer at its initial `0`, which is pushed and matches
the target: the function returns `[0]` — a byte that never came from the
stream — rather than looping. -/
theorem read_until_eof_counterexample :
    read_until 5 0 [] = some ([0], []) ∧ (0 : Nat) ∉ ([] : List Nat) :=
  ⟨rfl, by simp⟩

/-- C10, amended: `read_until` returns exactly the prefix of the remaining
input up to and including the first occurrence of the target byte (given
enough fuel); every returned line is non-empty, so indexing byte 0 of a
header line never fails; and when the stream is exhausted before the byte
occurs the zero-length read goes undetected and the function never returns
for any fuel — except in the degenerate case of an empty stream with
target byte `0`, where the stale initial scratch byte is mistaken for the
target and returned. -/
theorem read_until_behaviour (fuel1 fuel2 fuel3 byte1 byte2 byte3 : Nat)
    (pre post inputB out rest inputC : List Nat)
    (h1 : byte1 ∉ pre) (h2 : pre.length < fuel1)
    (h3 : read_until fuel2 byte2 inputB = some (out, rest))
    (h4 : byte3 ∉ inputC) (h5 : inputC ≠ [] ∨ byte3 ≠ 0) :
    read_until fuel1 byte1 (pre ++ byte1 :: post) = some (pre ++ [byte1], post)
    ∧ out ≠ []
    ∧ read_until fuel3 byte3 inputC = none :=
  ⟨read_until_finds fuel1 byte1 pre post h1 h2,
    read_until_nonempty fuel2 byte2 inputB out rest h3,
    read_until_diverges fuel3 byte3 inputC h4 h5⟩

/-- C10, witness: the line `+OK\r\n` followed by one more byte, a
one-byte line consisting of the terminator itself, and a terminator-free
stream on which the function never returns. -/
theorem read_until_behaviour_witness :
    read_until 10 10 ([43, 79, 75, 13] ++ 10 :: [99])
      = some ([43, 79, 75, 13] ++ [10], [99])
    ∧ [10] ≠ ([] : List Nat)
    ∧ read_until 7 10 [1, 2] = none :=
  read_until_behaviour 10 10 7 10 10 10 [43, 79, 75, 13] [99] [10] [10] []
    [1, 2] (by decide) (by decide) rfl (by decide) (by simp)

/-- C4: an array reply with a negative declared element count decodes to
`Nil`; with a non-negative declared count `n` the decoder decodes exactly
`n` nested frames (of any tag, nesting arbitrarily) and collects them in
order into `Array` — in particular a zero count yields `Array []` — and
`Array []` is not equal to `Nil`. -/
theorem parse_array_correct (fuel : Nat) (start input final : List Nat)
    (n : Int) (vs : List Value)
    (h : parse_i32 (trim start.tail) = some n) :
    (n < 0 → parse_array (fuel + 1) start input
      = some (Except.ok (Value.Nil, input)))
    ∧ (0 ≤ n → DecodesN fuel n.toNat input vs final →
        parse_array (fuel + 1) start input
          = some (Except.ok (Value.Array vs, final))
        ∧ vs.length = n.toNat)
    ∧ Value.Array [] ≠ Value.Nil := by
  refine ⟨fun hneg => ?_, fun hpos hd => ⟨?_, decodesN_length hd⟩,
    fun hh => Value.noConfusion hh⟩
  · simp [parse_array, h, hneg]
  · simp [parse_array, h, not_lt.mpr hpos, parse_frames_decodes hd]

/-- C4, witness: the header `*-1\r\n` resolving to `Nil`, the header
`*2\r\n` followed by an integer frame and a nested one-element array frame
(demonstrating mixed tags and nesting), and the `Array []`/`Nil`
distinction, via the claim theorem instantiated twice. -/
theorem parse_array_correct_witness :
    parse_array 20 [42, 45, 49, 13, 10] [99]
      = some (Except.ok (Value.Nil, [99]))
    ∧ parse_array 20 [42, 50, 13, 10]
        [58, 49, 13, 10, 42, 49, 13, 10, 43, 79, 75, 13, 10]
      = some (Except.ok
          (Value.Array [Value.Integer 1, Value.Array [Value.Ok]], []))
    ∧ Value.Array [] ≠ Value.Nil := by
  have w1 := (parse_array_correct 19 [42, 45, 49, 13, 10] [99] [] (-1) []
    (by decide)).1 (by decide)
  have d1 : read_value 19 [58, 49, 13, 10, 42, 49, 13, 10, 43, 79, 75, 13, 10]
      = some (Except.ok (Value.Integer 1,
        [42, 49, 13, 10, 43, 79, 75, 13, 10])) := by
    simp [read_value, parse_array, parse_frames, read_until, read_until_go,
      parse_simple_value, parse_string, parse_isize, parse_i32, parse_usize,
      parse_int_core, digits_to_nat, trim, is_ws, plus_ok_line, dollar_neg_one]
  have d2 : read_value 19 [42, 49, 13, 10, 43, 79, 75, 13, 10]
      = some (Except.ok (Value.Array [Value.Ok], [])) := by
    simp [read_value, parse_array, parse_frames, read_until, read_until_go,
      parse_simple_value, parse_string, parse_isize, parse_i32, parse_usize,
      parse_int_core, digits_to_nat, trim, is_ws, plus_ok_line, dollar_neg_one]
  have hd : DecodesN 19 2 [58, 49, 13, 10, 42, 49, 13, 10, 43, 79, 75, 13, 10]
      [Value.Integer 1, Value.Array [Value.Ok]] [] :=
    DecodesN.cons d1 (DecodesN.cons d2 (DecodesN.nil []))
  have w2 := (parse_array_correct 19 [42, 50, 13, 10]
    [58, 49, 13, 10, 42, 49, 13, 10, 43, 79, 75, 13, 10] [] 2
    [Value.Integer 1, Value.Array [Value.Ok]] (by decide)).2.1
    (by decide) hd
  exact ⟨w1, w2.1, fun hh => Value.noConfusion hh⟩

/-- C6: a frame whose header line begins with the error tag `-` (byte 45)
decodes to the recoverable server-error result `RedisError` carrying the
message bytes — a returned error value, not a panic — and a frame whose
first byte is none of the five tags decodes to `UnexpectedResponse`
carrying the raw line; both hold at the top level (`read_value`) and inside
nested array decoding (`parse_frames`). -/
theorem error_and_unknown_tag_frames (fuel c : Nat)
    (input buf rest : List Nat) (t : Nat)
    (h : read_until (fuel + 1) 10 input = some (buf, rest))
    (ht : buf.head? = some t) :
    (t = 45 →
      read_value (fuel + 1) input
        = some (Except.error (RError.RedisError buf.tail))
      ∧ parse_frames (fuel + 1) (c + 1) input
        = some (Except.error (RError.RedisError buf.tail)))
    ∧ (t ∉ ([43, 45, 58, 36, 42] : List Nat) →
      read_value (fuel + 1) input
        = some (Except.error (RError.UnexpectedResponse buf))
      ∧ parse_frames (fuel + 1) (c + 1) input
        = some (Except.error (RError.UnexpectedResponse buf))) := by
  cases buf with
  | nil => simp at ht
  | cons a tail =>
    simp only [List.head?, Option.some.injEq] at ht
    subst ht
    constructor
    · intro h45
      subst h45
      have hv : read_value (fuel + 1) input
          = some (Except.error (RError.RedisError tail)) := by
        simp [read_value, h, parse_simple_value]
      exact ⟨by simpa using hv, by simp [parse_frames, hv]⟩
    · intro hnot
      simp only [List.mem_cons, List.not_mem_nil, or_false, not_or] at hnot
      obtain ⟨n43, n45, n58, n36, n42⟩ := hnot
      have hv : read_value (fuel + 1) input
          = some (Except.error (RError.UnexpectedResponse (a :: tail))) := by
        simp [read_value, h, n43, n45, n58, n36, n42]
      exact ⟨hv, by simp [parse_frames, hv]⟩

/-- C6, witness: the error frame `-ERR boom\r\n` and the out-of-grammar
frame `!x\r\n`, each checked at the top level and as the first element of a
nested array decode, via the claim theorem instantiated twice. -/
theorem error_and_unknown_tag_frames_witness :
    read_value 20 [45, 69, 82, 82, 32, 98, 111, 111, 109, 13, 10]
      = some (Except.error
          (RError.RedisError [69, 82, 82, 32, 98, 111, 111, 109, 13, 10]))
    ∧ parse_frames 20 1 [45, 69, 82, 82, 32, 98, 111, 111, 109, 13, 10]
      = some (Except.error
          (RError.RedisError [69, 82, 82, 32, 98, 111, 111, 109, 13, 10]))
    ∧ read_value 20 [33, 120, 13, 10]
      = some (Except.error (RError.UnexpectedResponse [33, 120, 13, 10]))
    ∧ parse_frames 20 1 [33, 120, 13, 10]
      = some (Except.error (RError.UnexpectedResponse [33, 120, 13, 10])) := by
  have w1 := (error_and_unknown_tag_frames 19 0
    [45, 69, 82, 82, 32, 98, 111, 111, 109, 13, 10]
    [45, 69, 82, 82, 32, 98, 111, 111, 109, 13, 10] [] 45 rfl rfl).1 rfl
  have w2 := (error_and_unknown_tag_frames 19 0 [33, 120, 13, 10]
    [33, 120, 13, 10] [] 33 rfl rfl).2 (by decide)
  exact ⟨w1.1, w1.2, w2.1, w2.2⟩

/-- C8: `subscribe` (resp. `psubscribe`) runs the subscribe command —
reading its one reply — then reads and discards exactly `len - 1` further
confirmation frames, asserting that each confirmation is an array whose
first element is the byte string `subscribe` (resp. `psubscribe`): when
the reply and all `len - 1` confirmations are well-formed the assertion
never fires and the remaining input is handed to the message stream,
while a first array element differing from the tag is a fatal panic
(`none`), not a recoverable error. -/
theorem subscribe_confirmation_discipline
    (fuel n m k : Nat) (ch pat ch2 : List (List Nat))
    (in1 in2 in3 r1 r2 r3 r4 f1 f2 : List Nat) (v1 v2 v3 : Value)
    (w : Value) (ws : List Value)
    (hch : ch.length = n + 1)
    (hpat : pat.length = m + 1)
    (h1 : read_value fuel in1 = some (Except.ok (v1, r1)))
    (h2 : read_value fuel in2 = some (Except.ok (v2, r2)))
    (g1 : GoodConfirms fuel (ascii ("subscribe")) n r1 f1)
    (g2 : GoodConfirms fuel (ascii ("psubscribe")) m r2 f2)
    (hlen3 : ch2.length = k + 2)
    (h3 : read_value fuel in3 = some (Except.ok (v3, r3)))
    (h4 : read_value fuel r3 = some (Except.ok (Value.Array (w :: ws), r4)))
    (hw : w ≠ Value.String (ascii ("subscribe"))) :
    subscribe fuel ch in1 = some (Except.ok f1)
    ∧ psubscribe fuel pat in2 = some (Except.ok f2)
    ∧ subscribe fuel ch2 in3 = none := by
  refine ⟨?_, ?_, ?_⟩
  · have hcs : checked_sub ch.length 1 = some n := by
      rw [hch]; simp [checked_sub]
    simp [subscribe, h1, hcs, confirm_loop_drains g1]
  · have hcs : checked_sub pat.length 1 = some m := by
      rw [hpat]; simp [checked_sub]
    simp [psubscribe, h2, hcs, confirm_loop_drains g2]
  · have hcs : checked_sub ch2.length 1 = some (k + 1) := by
      rw [hlen3]; simp [checked_sub]
    simp [subscribe, h3, hcs, confirm_loop, h4, hw]

/-- C8, witness: two channels with an `+OK\r\n` reply and one well-formed
confirmation frame for each mode, and the fatal case where the single
confirmation's first element is the string `x` instead of the tag, via the
claim theorem at those concrete streams. -/
theorem subscribe_confirmation_discipline_witness :
    subscribe 20 [[97], [98]]
        ([43, 79, 75, 13, 10] ++ [42, 51, 13, 10, 36, 57, 13, 10, 115, 117,
          98, 115, 99, 114, 105, 98, 101, 13, 10, 36, 49, 13, 10, 97, 13, 10,
          58, 49, 13, 10])
      = some (Except.ok [])
    ∧ psubscribe 20 [[97], [98]]
        ([43, 79, 75, 13, 10] ++ [42, 51, 13, 10, 36, 49, 48, 13, 10, 112,
          115, 117, 98, 115, 99, 114, 105, 98, 101, 13, 10, 36, 49, 13, 10,
          97, 13, 10, 58, 49, 13, 10])
      = some (Except.ok [])
    ∧ subscribe 20 [[97], [98]]
        ([43, 79, 75, 13, 10] ++ [42, 49, 13, 10, 36, 49, 13, 10, 120, 13, 10])
      = none := by
  have e1 : read_value 20 ([43, 79, 75, 13, 10] ++ [42, 51, 13, 10, 36, 57,
      13, 10, 115, 117, 98, 115, 99, 114, 105, 98, 101, 13, 10, 36, 49, 13,
      10, 97, 13, 10, 58, 49, 13, 10])
      = some (Except.ok (Value.Ok, [42, 51, 13, 10, 36, 57, 13, 10, 115, 117,
        98, 115, 99, 114, 105, 98, 101, 13, 10, 36, 49, 13, 10, 97, 13, 10,
        58, 49, 13, 10])) := by
    simp [read_value, parse_array, parse_frames, read_until, read_until_go,
      parse_simple_value, parse_string, parse_isize, parse_i32, parse_usize,
      parse_int_core, digits_to_nat, trim, is_ws, plus_ok_line, dollar_neg_one]
  have e2 : read_value 20 [42, 51, 13, 10, 36, 57, 13, 10, 115, 117, 98, 115,
      99, 114, 105, 98, 101, 13, 10, 36, 49, 13, 10, 97, 13, 10, 58, 49, 13,
      10] = some (Except.ok (Value.Array (Value.String (ascii ("subscribe"))
        :: [Value.String [97], Value.Integer 1]), [])) := by
    simp [read_value, parse_array, parse_frames, read_until, read_until_go,
      parse_simple_value, parse_string, parse_isize, parse_i32, parse_usize,
      parse_int_core, digits_to_nat, trim, is_ws, plus_ok_line, dollar_neg_one,
      ascii]
  have e3 : read_value 20 ([43, 79, 75, 13, 10] ++ [42, 51, 13, 10, 36, 49,
      48, 13, 10, 112, 115, 117, 98, 115, 99, 114, 105, 98, 101, 13, 10, 36,
      49, 13, 10, 97, 13, 10, 58, 49, 13, 10])
      = some (Except.ok (Value.Ok, [42, 51, 13, 10, 36, 49, 48, 13, 10, 112,
        115, 117, 98, 115, 99, 114, 105, 98, 101, 13, 10, 36, 49, 13, 10, 97,
        13, 10, 58, 49, 13, 10])) := by
    simp [read_value, parse_array, parse_frames, read_until, read_until_go,
      parse_simple_value, parse_string, parse_isize, parse_i32, parse_usize,
      parse_int_core, digits_to_nat, trim, is_ws, plus_ok_line, dollar_neg_one]
  have e4 : read_value 20 [42, 51, 13, 10, 36, 49, 48, 13, 10, 112, 115, 117,
      98, 115, 99, 114, 105, 98, 101, 13, 10, 36, 49, 13, 10, 97, 13, 10, 58,
      49, 13, 10] = some (Except.ok (Value.Array
        (Value.String (ascii ("psubscribe"))
          :: [Value.String [97], Value.Integer 1]), [])) := by
    simp [read_value, parse_array, parse_frames, read_until, read_until_go,
      parse_simple_value, parse_string, parse_isize, parse_i32, parse_usize,
      parse_int_core, digits_to_nat, trim, is_ws, plus_ok_line, dollar_neg_one,
      ascii]
  have e5 : read_value 20 ([43, 79, 75, 13, 10] ++ [42, 49, 13, 10, 36, 49,
      13, 10, 120, 13, 10])
      = some (Except.ok (Value.Ok, [42, 49, 13, 10, 36, 49, 13, 10, 120, 13,
        10])) := by
    simp [read_value, parse_array, parse_frames, read_until, read_until_go,
      parse_simple_value, parse_string, parse_isize, parse_i32, parse_usize,
      parse_int_core, digits_to_nat, trim, is_ws, plus_ok_line, dollar_neg_one]
  have e6 : read_value 20 [42, 49, 13, 10, 36, 49, 13, 10, 120, 13, 10]
      = some (Except.ok (Value.Array (Value.String [120] :: []), [])) := by
    simp [read_value, parse_array, parse_frames, read_until, read_until_go,
      parse_simple_value, parse_string, parse_isize, parse_i32, parse_usize,
      parse_int_core, digits_to_nat, trim, is_ws, plus_ok_line, dollar_neg_one]
  have hw : Value.String [120] ≠ Value.String (ascii ("subscribe")) := by
    intro hh
    injection hh with hh2
    simp [ascii] at hh2
  exact subscribe_confirmation_discipline 20 1 1 0 [[97], [98]] [[97], [98]]
    [[97], [98]] _ _ _ _ _ _ _ _ _ Value.Ok Value.Ok Value.Ok
    (Value.String [120]) [] rfl rfl e1 e3
    (GoodConfirms.cons e2 (GoodConfirms.nil []))
    (GoodConfirms.cons e4 (GoodConfirms.nil []))
    rfl e5 e6 hw

/-- C9: calling `subscribe` or `psubscribe` with an empty channel/pattern
slice performs no empty-argument-list check before I/O — the command is
sent and its reply is read, and no input can make the call return
`Error::EmptySlice` — and once the initial reply decodes successfully the
loop bound `channels.len() - 1` underflows the unsigned length, so the
call panics (with overflow checks enabled) instead. -/
theorem subscribe_empty_slice_panic (fuel : Nat) (input r : List Nat)
    (v : Value) (h : read_value fuel input = some (Except.ok (v, r))) :
    (subscribe fuel [] input = none ∧ psubscribe fuel [] input = none)
    ∧ (∀ input2 : List Nat,
        subscribe fuel [] input2 ≠ some (Except.error RError.EmptySlice)
        ∧ psubscribe fuel [] input2 ≠ some (Except.error RError.EmptySlice)) := by
  constructor
  · exact ⟨by simp [subscribe, h, checked_sub],
      by simp [psubscribe, h, checked_sub]⟩
  · intro input2
    have hne := (decoder_ne_empty_slice fuel).1 input2
    constructor
    · cases hrv : read_value fuel input2 with
      | none => simp [subscribe, hrv]
      | some res =>
        cases res with
        | error e =>
          rw [hrv] at hne
          simp only [subscribe, hrv]
          simpa using hne
        | ok p =>
          obtain ⟨v2, r2⟩ := p
          simp [subscribe, hrv, checked_sub]
    · cases hrv : read_value fuel input2 with
      | none => simp [psubscribe, hrv]
      | some res =>
        cases res with
        | error e =>
          rw [hrv] at hne
          simp only [psubscribe, hrv]
          simpa using hne
        | ok p =>
          obtain ⟨v2, r2⟩ := p
          simp [psubscribe, hrv, checked_sub]

/-- C9, witness: an empty channel slice against the reply `+OK\r\n`, where
both calls panic, and the no-`EmptySlice` guarantee checked on the error
reply `-x\r\n`, via the claim theorem. -/
theorem subscribe_empty_slice_panic_witness :
    (subscribe 20 [] [43, 79, 75, 13, 10] = none
      ∧ psubscribe 20 [] [43, 79, 75, 13, 10] = none)
    ∧ (subscribe 20 [] [45, 120, 13, 10]
        ≠ some (Except.error RError.EmptySlice)
      ∧ psubscribe 20 [] [45, 120, 13, 10]
        ≠ some (Except.error RError.EmptySlice)) := by
  have e1 : read_value 20 [43, 79, 75, 13, 10]
      = some (Except.ok (Value.Ok, [])) := by
    simp [read_value, read_until, read_until_go, parse_simple_value,
      plus_ok_line]
  have w := subscribe_empty_slice_panic 20 [43, 79, 75, 13, 10] [] Value.Ok e1
  exact ⟨w.1, w.2 [45, 120, 13, 10]⟩

end Claims

end Darkredis
